import Mathlib

/-!
Verification of the toast-notification coordinator in `src/ToastWindow.cpp`.

The development shallowly embeds the parts of the program the claims are
about:

* text handling (the wide strings of the program are modelled as `List Char`);
* the message normalization of the `--notify-show` branch of `WinMain`
  (newline substitution and truncation with an ellipsis);
* the stacking geometry (`GetBaseY`, `CalculateStackedY`, `IsBottomToast`);
* the reposition animation (`AnimateToPosition`);
* the window-procedure handlers for timers, peer messages, mouse and
  button events (`WndProc`);
* the session state store (`SaveState`, `LoadState`, the state file layout)
  and the `WinMain` invocation modes (`--save`, `--notify`, `--notify-show`).

Machine handles (`HWND`) are modelled as `Int` (the program prints them with
`%lld` and parses them with `_wtoi64`, i.e. as 64-bit signed integers).
Environment queries (`IsWindow`, `IsWindowsTerminalWindow`) are passed in as
predicates `Int → Bool`.  Files opened in Windows text mode round-trip the
logical character stream (writes translate `\n` to `\r\n`, reads translate
it back), so the state file is modelled as the logical `List Char` that was
written.
-/

namespace ToastWindow

/-! ## Text model and message normalization (`WinMain`, notify-show branch) -/

/-- Model of the newline-substitution loop of the notify-show branch of
`WinMain`: every `\n` or `\r` character of `g_message` is overwritten with a
space before display. -/
def substituteNewlines (s : List Char) : List Char :=
  s.map fun c => if c = '\n' || c = '\r' then ' ' else c

/-- The display cap `maxLen = 35` of the notify-show branch of `WinMain`. -/
def maxLen : Nat := 35

/-- Model of the truncation of `g_message` in the notify-show branch of
`WinMain`: if the message exceeds `maxLen` characters it is cut to `maxLen`
characters and `"..."` is appended. -/
def truncateWithEllipsis (s : List Char) : List Char :=
  if s.length > maxLen then s.take maxLen ++ "...".data else s

/-- The whole message normalization pipeline of the notify-show branch:
newline substitution followed by truncation, in the order of the source. -/
def normalizeMessage (s : List Char) : List Char :=
  truncateWithEllipsis (substituteNewlines s)

/-! ## Geometry: taskbar edge, rectangles, peers -/

/-- The taskbar edge cached in `g_taskbarEdge`.  The source only ever tests
`g_taskbarEdge == ABE_TOP`; every other edge value takes the bottom-taskbar
branch, so the model needs just the two cases. -/
inductive Edge where
  | top
  | bottom
deriving DecidableEq

/-- A screen rectangle as produced by `GetWindowRect` (a Win32 `RECT`). -/
structure Rect where
  left : Int
  top : Int
  right : Int
  bottom : Int
deriving DecidableEq

/-- One entry of the peer list built by `EnumToastWindows` /
`GetOtherToasts`: a window handle plus its current rectangle. -/
structure ToastInfo where
  hwnd : Int
  rect : Rect
deriving DecidableEq

/-- Model of `GetBaseY`: the edge-adjacent Y coordinate of a lone toast,
computed from the cached work area and the toast height `g_windowHeight`. -/
def GetBaseY (edge : Edge) (workArea : Rect) (height : Int) : Int :=
  match edge with
  | .top => workArea.top
  | .bottom => workArea.bottom - height

/-- Model of `CalculateStackedY`.  The peer list argument stands for the
result of the `GetOtherToasts()` call made inside the source function (the
sort applied there does not affect this computation).  For a top taskbar the
loop computes the largest peer bottom starting from `workArea.top`; for a
bottom taskbar it computes the smallest peer top starting from
`workArea.bottom` and subtracts the toast height. -/
def CalculateStackedY (edge : Edge) (workArea : Rect) (height : Int)
    (toasts : List ToastInfo) : Int :=
  if toasts.isEmpty then GetBaseY edge workArea height
  else
    match edge with
    | .top =>
        toasts.foldl
          (fun acc t => if t.rect.bottom > acc then t.rect.bottom else acc)
          workArea.top
    | .bottom =>
        (toasts.foldl
          (fun acc t => if t.rect.top < acc then t.rect.top else acc)
          workArea.bottom) - height

/-- Model of `IsBottomToast`: the caller (with rectangle `myRect`) is the
bottom toast iff the peer list is empty or no peer lies strictly closer to
the taskbar edge (strictly smaller top for a top taskbar, strictly larger
bottom for a bottom taskbar).  The loop returns `false` on the first
offending peer and `true` if none offends. -/
def IsBottomToast (edge : Edge) (myRect : Rect) (toasts : List ToastInfo) :
    Bool :=
  if toasts.isEmpty then true
  else
    match edge with
    | .top =>
        toasts.all fun t => if t.rect.top < myRect.top then false else true
    | .bottom =>
        toasts.all fun t =>
          if t.rect.bottom > myRect.bottom then false else true

/-! ## Reposition animation (`AnimateToPosition`) -/

/-- C truncating division by 5, as performed by `diff * 2 / 5` in
`AnimateToPosition` (MSVC `int` division rounds toward zero).  For a
nonnegative dividend euclidean and truncating division agree; a negative
dividend is reduced to the nonnegative case by negation. -/
def tdiv5 (a : Int) : Int :=
  if 0 ≤ a then a / 5 else -((-a) / 5)

/-- One tick of `AnimateToPosition`, acting on the window's current top
coordinate `currentY` with animation target `targetY` (`g_targetY`).
Returns the Y coordinate after the tick together with whether the
`TIMER_REPOSITION` timer is still armed afterwards (`false` exactly when the
tick called `KillTimer`). -/
def animateStep (targetY currentY : Int) : Int × Bool :=
  if currentY = targetY then (currentY, false)
  else
    let diff := targetY - currentY
    let step0 := tdiv5 (diff * 2)
    let step := if step0 = 0 then (if diff > 0 then 2 else -2) else step0
    let newY0 := currentY + step
    let newY := if (targetY - newY0).natAbs < 4 then targetY else newY0
    (newY, !(newY = targetY : Bool))

/-- Iterated animation ticks: the position after `n` ticks of
`AnimateToPosition` starting from `y`. -/
def animIter (targetY : Int) : Nat → Int → Int
  | 0, y => y
  | n + 1, y => animIter targetY n (animateStep targetY y).1

/-! ## Inter-toast messages and the per-instance handler state

One toast instance is one process; its mutable process globals
(`g_alpha`, `g_isFading`, `g_mouseInside`, `g_isBottomToast`, `g_targetY`,
`g_clicked`) together with which of its four timers are armed form the
per-instance state below.  Peer coordination is fire-and-forget
`PostMessage`; a handler's outcome is its new state plus the list of posted
messages and whether it destroyed its own window / invoked
`ActivateWindow`. -/

/-- The two custom inter-toast messages (`WM_TOAST_CHECK_POSITION` carries
the closing toast's top coordinate in `wParam`; `WM_TOAST_PAUSE_TIMER`
carries pause=1 / resume=0). -/
inductive ToastMsg where
  | checkPosition (closedTop : Int)
  | pauseTimer (pause : Bool)
deriving DecidableEq

/-- A message posted to a destination window handle. -/
structure Posted where
  dest : Int
  msg : ToastMsg
deriving DecidableEq

/-- The mutable per-instance state of one toast process. -/
structure ToastState where
  alpha : Int
  isFading : Bool
  mouseInside : Bool
  isBottomToast : Bool
  targetY : Int
  clicked : Bool
  startFadeOn : Bool
  fadeOn : Bool
  repositionOn : Bool
  checkBottomOn : Bool
deriving DecidableEq

/-- The environment a handler invocation observes: the cached taskbar edge,
the toast's own current rectangle (`GetWindowRect(g_hwnd)`), the live peer
list (`GetOtherToasts()` at that instant), the toast height
`g_windowHeight` and width `g_windowWidth`, and the toast's own handle. -/
structure ToastEnv where
  edge : Edge
  myRect : Rect
  peers : List ToastInfo
  height : Int
  width : Int
  selfHwnd : Int
deriving DecidableEq

/-- The outcome of one handler invocation. -/
structure Effects where
  state : ToastState
  posted : List Posted
  destroyed : Bool
  activated : Bool
deriving DecidableEq

/-- Model of `NotifyOtherToastsClosing`: post `WM_TOAST_CHECK_POSITION`,
carrying the closing toast's `myRect.top`, to every discovered peer. -/
def notifyOtherToastsClosing (myTop : Int) (peers : List ToastInfo) :
    List Posted :=
  peers.map fun t => ⟨t.hwnd, .checkPosition myTop⟩

/-- Model of `NotifyAllToastsPauseTimer`: post `WM_TOAST_PAUSE_TIMER` to the
toast itself and then to every discovered peer. -/
def notifyAllToastsPauseTimer (selfHwnd : Int) (pause : Bool)
    (peers : List ToastInfo) : List Posted :=
  ⟨selfHwnd, .pauseTimer pause⟩ ::
    peers.map fun t => ⟨t.hwnd, .pauseTimer pause⟩

/-- Effects that change nothing except (possibly) the state. -/
def quietly (st : ToastState) : Effects :=
  ⟨st, [], false, false⟩

/-- Model of the `TIMER_START_FADE` arm of `WM_TIMER`: kill the start timer,
mark fading and arm the high-frequency fade tick. -/
def onTimerStartFade (st : ToastState) : Effects :=
  quietly { st with startFadeOn := false, isFading := true, fadeOn := true }

/-- Model of the `TIMER_FADE` arm of `WM_TIMER`: while `g_alpha` is above
`g_fadeStep` just decrease the opacity; otherwise stop fading, broadcast
`NotifyOtherToastsClosing` to every peer and destroy the window. -/
def onTimerFade (fadeStep : Int) (env : ToastEnv) (st : ToastState) :
    Effects :=
  if st.alpha > fadeStep then
    quietly { st with alpha := st.alpha - fadeStep }
  else
    ⟨{ st with isFading := false, fadeOn := false },
      notifyOtherToastsClosing env.myRect.top env.peers, true, false⟩

/-- Model of the `TIMER_CHECK_BOTTOM` arm of `WM_TIMER`: if the toast just
became the bottom toast, record that, kill the poll timer and arm the
display timer `TIMER_START_FADE`. -/
def onTimerCheckBottom (env : ToastEnv) (st : ToastState) : Effects :=
  if IsBottomToast env.edge env.myRect env.peers && !st.isBottomToast then
    quietly { st with isBottomToast := true, checkBottomOn := false,
                      startFadeOn := true }
  else quietly st

/-- Model of the `WM_TOAST_CHECK_POSITION` handler: a peer closed at top
coordinate `closedTop`.  If this toast sits farther from the taskbar edge
than the closed rectangle (smaller top for a bottom taskbar, larger top for
a top taskbar), aim `g_targetY` one toast height toward the edge and arm
`TIMER_REPOSITION`; then run the same became-bottom check as
`TIMER_CHECK_BOTTOM`. -/
def onCheckPosition (env : ToastEnv) (st : ToastState) (closedTop : Int) :
    Effects :=
  let st1 :=
    match env.edge with
    | .top =>
        if env.myRect.top > closedTop then
          { st with targetY := env.myRect.top - env.height,
                    repositionOn := true }
        else st
    | .bottom =>
        if env.myRect.top < closedTop then
          { st with targetY := env.myRect.top + env.height,
                    repositionOn := true }
        else st
  if IsBottomToast env.edge env.myRect env.peers && !st1.isBottomToast then
    quietly { st1 with isBottomToast := true, checkBottomOn := false,
                       startFadeOn := true }
  else quietly st1

/-- Model of the `WM_TOAST_PAUSE_TIMER` handler.  Pause: a fading toast
kills its fade tick and restores the full opacity 230; every toast kills its
pending display timer.  Resume: only a toast whose `g_isBottomToast` flag is
set and whose pointer is outside rearms the display timer. -/
def onPauseTimer (st : ToastState) (pause : Bool) : Effects :=
  if pause then
    let st1 :=
      if st.isFading then
        { st with fadeOn := false, isFading := false, alpha := 230 }
      else st
    quietly { st1 with startFadeOn := false }
  else
    if st.isBottomToast && !st.mouseInside then
      quietly { st with startFadeOn := true }
    else quietly st

/-- Model of `IsPointInCloseButton` (with `CLOSE_BUTTON_SIZE = 20`,
`CLOSE_BUTTON_MARGIN = 6`). -/
def isPointInCloseButton (width x y : Int) : Bool :=
  let btnLeft := width - 6 - 20
  let btnTop := (6 : Int)
  decide (x ≥ btnLeft) && decide (x ≤ btnLeft + 20) &&
    decide (y ≥ btnTop) && decide (y ≤ btnTop + 20)

/-- Model of the `WM_LBUTTONUP` handler.  A click on the close button kills
both fade timers, broadcasts the closing message and destroys the window; a
primary click anywhere else additionally sets `g_clicked` and invokes
`ActivateWindow` before destroying. -/
def onLButtonUp (env : ToastEnv) (st : ToastState) (x y : Int) : Effects :=
  if isPointInCloseButton env.width x y then
    ⟨{ st with startFadeOn := false, fadeOn := false },
      notifyOtherToastsClosing env.myRect.top env.peers, true, false⟩
  else
    ⟨{ st with clicked := true, startFadeOn := false, fadeOn := false },
      notifyOtherToastsClosing env.myRect.top env.peers, true, true⟩

/-- Model of the `WM_RBUTTONUP` handler: kill both fade timers, broadcast
the closing message, destroy the window. -/
def onRButtonUp (env : ToastEnv) (st : ToastState) : Effects :=
  ⟨{ st with startFadeOn := false, fadeOn := false },
    notifyOtherToastsClosing env.myRect.top env.peers, true, false⟩

/-- Model of the `WM_MOUSEMOVE` handler: on the pointer-enter transition
(`g_mouseInside` was false) record the pointer as inside and broadcast the
pause message to the toast itself and every peer. -/
def onMouseMove (env : ToastEnv) (st : ToastState) : Effects :=
  if !st.mouseInside then
    ⟨{ st with mouseInside := true },
      notifyAllToastsPauseTimer env.selfHwnd true env.peers, false, false⟩
  else quietly st

/-- Model of the `WM_MOUSELEAVE` handler: record the pointer as outside and
broadcast the resume message to the toast itself and every peer. -/
def onMouseLeave (env : ToastEnv) (st : ToastState) : Effects :=
  ⟨{ st with mouseInside := false },
    notifyAllToastsPauseTimer env.selfHwnd false env.peers, false, false⟩

/-! ## Session state store: the state file written by `SaveState` and read
by `LoadState`

`SaveState` prints four newline-terminated lines with `fwprintf`: the
foreground window handle (`%lld`), the Windows Terminal runtime id (empty
when not applicable), the caller executable path, and the user prompt.
`LoadState` reads them back with four `fgetws(line, 2048, f)` calls,
stripping trailing `\n`/`\r` from each line. -/

/-- The decimal digit character for `d` (`'0'` + d). -/
def digitChar (d : Nat) : Char := Char.ofNat (48 + d)

/-- The numeric value of a digit character. -/
def charDigit (c : Char) : Nat := c.toNat - 48

/-- Decimal digits of `n`, most significant first, written with explicit
fuel so that the definition is structurally recursive (the fuel is always
taken `≥ n`, which is plenty since `n / 10 < n` for `n ≠ 0`). -/
def natCharsAux : Nat → Nat → List Char
  | 0, _ => []
  | fuel + 1, n =>
      if n = 0 then []
      else natCharsAux fuel (n / 10) ++ [digitChar (n % 10)]

/-- The decimal rendering of a natural number, as printed by `%lld` for a
nonnegative value. -/
def natChars (n : Nat) : List Char :=
  if n = 0 then ['0'] else natCharsAux (n + 1) n

/-- The decimal rendering of an integer, as printed by `%lld`. -/
def intChars (i : Int) : List Char :=
  if i < 0 then '-' :: natChars i.natAbs else natChars i.toNat

/-- Accumulating decimal parse: consume leading digit characters, stop at
the first non-digit (the digit loop of `_wtoi64`). -/
def parseDigits (acc : Nat) : List Char → Nat
  | [] => acc
  | c :: cs =>
      if c.isDigit then parseDigits (acc * 10 + charDigit c) cs else acc

/-- Whitespace skipped by `_wtoi64` before the sign and digits. -/
def isSpaceChar (c : Char) : Bool :=
  c = ' ' || c = '\t' || c = '\n' || c = '\r' ||
    c = Char.ofNat 11 || c = Char.ofNat 12

/-- Model of `_wtoi64` as used on line 1 of the state file: skip leading
whitespace, honor an optional sign, parse the digit run, ignore the rest. -/
def wtoi64 (cs : List Char) : Int :=
  let cs2 := cs.dropWhile isSpaceChar
  match cs2 with
  | [] => 0
  | c :: rest =>
      if c = '-' then -(parseDigits 0 rest : Int)
      else if c = '+' then (parseDigits 0 rest : Int)
      else (parseDigits 0 (c :: rest) : Int)

/-- Model of one `fgetws(line, n+1, f)` call on the remaining stream: read
characters until (and including) a newline, but at most `n` characters.
Returns the characters read and the remaining stream. -/
def fgetwsGo : Nat → List Char → List Char × List Char
  | 0, cs => ([], cs)
  | _ + 1, [] => ([], [])
  | n + 1, c :: cs =>
      if c = '\n' then ([c], cs)
      else
        let p := fgetwsGo n cs
        (c :: p.1, p.2)

/-- Strip trailing `\n` and `\r` characters, as the `while (len > 0 && ...)`
loop after each `fgetws` in `LoadState` does. -/
def rstrip (l : List Char) : List Char :=
  (l.reverse.dropWhile fun c => c = '\n' || c = '\r').reverse

/-- The (up to) `k` lines obtained by repeated `fgetws(line, 2048, f)` calls
from stream `cs`, each stripped of trailing `\n`/`\r`.  `fgetws` returns
null at end of file, upon which `LoadState` stops assigning fields. -/
def readLines : Nat → List Char → List (List Char)
  | 0, _ => []
  | _ + 1, [] => []
  | k + 1, cs =>
      let p := fgetwsGo 2047 cs
      rstrip p.1 :: readLines k p.2

/-- The state file contents produced by `SaveState` for a captured window
handle, runtime id, caller executable path and user prompt: four
`fwprintf(f, L"...\n")` writes. -/
def saveStateFile (hwnd : Int) (runtimeId callerExe prompt : List Char) :
    List Char :=
  intChars hwnd ++ '\n' ::
    (runtimeId ++ '\n' :: (callerExe ++ '\n' :: (prompt ++ ['\n'])))

/-- The globals populated by `LoadState`: `g_targetWindowHandle`,
`g_wtWindowHandle`, `g_wtSavedRuntimeId`, `g_savedIconPath`,
`g_userPrompt`.  `none` / `[]` mean the global kept its initial value. -/
structure LoadedState where
  targetWindowHandle : Option Int
  wtWindowHandle : Option Int
  wtSavedRuntimeId : List Char
  savedIconPath : List Char
  userPrompt : List Char
deriving DecidableEq

/-- The initial values of the globals `LoadState` populates. -/
def emptyLoadedState : LoadedState := ⟨none, none, [], [], []⟩

/-- Model of `LoadState`.  `isWindow` and `isWT` model the environment
queries `IsWindow` and `IsWindowsTerminalWindow` on a handle; `file` is the
state file contents, or `none` when the file does not exist (in which case
`LoadState` returns immediately and every global keeps its default). -/
def loadState (isWindow isWT : Int → Bool) (file : Option (List Char)) :
    LoadedState :=
  match file with
  | none => emptyLoadedState
  | some cs =>
      let ls := readLines 4 cs
      let l1 := ls.getD 0 []
      let l2 := ls.getD 1 []
      let l3 := ls.getD 2 []
      let l4 := ls.getD 3 []
      let h := wtoi64 l1
      { targetWindowHandle :=
          if h ≠ 0 ∧ isWindow h = true then some h else none
        wtWindowHandle :=
          if h ≠ 0 ∧ isWindow h = true ∧ isWT h = true then some h
          else none
        wtSavedRuntimeId := l2
        savedIconPath := l3
        userPrompt := l4 }

/-! ## Window activation (`ActivateWindow`, `SwitchToWindowsTerminalTab`) -/

/-- What a primary click ends up doing: switching to a Windows Terminal tab
of window `h` (which also foregrounds `h`), foregrounding a plain window
`h`, or nothing at all. -/
inductive ActivationAction where
  | switchTab (h : Int) (runtimeId : List Char)
  | activate (h : Int)
  | noop
deriving DecidableEq

/-- The window handle an activation action brings to the foreground. -/
def activationTarget : ActivationAction → Option Int
  | .switchTab h _ => some h
  | .activate h => some h
  | .noop => none

/-- Model of the plain-window path of `ActivateWindow`: a no-op unless
`g_targetWindowHandle` is set and still a live window. -/
def regularActivate (isWindow : Int → Bool) (st : LoadedState) :
    ActivationAction :=
  match st.targetWindowHandle with
  | some h => if isWindow h then .activate h else .noop
  | none => .noop

/-- Model of `ActivateWindow`: with a Windows Terminal handle and a saved
runtime id it enters `SwitchToWindowsTerminalTab` (a no-op if the window
died, otherwise it foregrounds the window and selects the saved tab) and
returns regardless; otherwise it activates the plain target window. -/
def activateWindow (isWindow : Int → Bool) (st : LoadedState) :
    ActivationAction :=
  match st.wtWindowHandle with
  | some wh =>
      if st.wtSavedRuntimeId = [] then regularActivate isWindow st
      else if isWindow wh then .switchTab wh st.wtSavedRuntimeId
      else .noop
  | none => regularActivate isWindow st

/-! ## The invocation modes of `WinMain` -/

/-- The session state store: the `%TEMP%` directory keyed by session id
(`GetStateFilePath` derives one path per session id). -/
def Store : Type := List Char → Option (List Char)

/-- Writing the state file for session `k` (a later write for the same key
overwrites the earlier one). -/
def putState (store : Store) (k content : List Char) : Store :=
  fun k2 => if k2 = k then some content else store k2

/-- Deleting the state file for session `k` (`DeleteFileW` after the toast
ran). -/
def eraseState (store : Store) (k : List Char) : Store :=
  fun k2 => if k2 = k then none else store k2

/-- Model of the `--save` invocation (`WinMain` saveMode branch calling
`SaveState`).  `sessionId` and `prompt` are the values
`ExtractJsonStringValue` produced from the stdin JSON (the empty list when
the key is missing or malformed); `hwnd`, `runtimeId` and `callerExe` are
the captured foreground window, the selected-tab runtime id computed via UI
Automation (empty for a non-terminal window) and the caller executable path.
Returns the process exit code and the store afterwards.  With an empty
session id `SaveState` logs and returns without writing, and `WinMain`
still returns 0. -/
def saveInvocation (sessionId prompt : List Char) (hwnd : Int)
    (runtimeId callerExe : List Char) (store : Store) : Nat × Store :=
  if sessionId = [] then (0, store)
  else
    (0, putState store sessionId
          (saveStateFile hwnd runtimeId callerExe prompt))

/-- Model of the `--notify` / `--input` launcher invocation: it only
extracts the session id from stdin and spawns the detached
`--notify-show` process.  Returns the exit code and whether the child was
spawned. -/
def notifyLauncher (sessionId : List Char) : Nat × Bool :=
  if sessionId = [] then (1, false) else (0, true)

/-- The observable outcome of a `--notify-show` invocation: exit code, the
title and normalized message the toast displays, and what a primary click
on it would activate. -/
structure ShowResult where
  exitCode : Nat
  title : List Char
  message : List Char
  click : ActivationAction
deriving DecidableEq

/-- Model of the `--notify-show` invocation of `WinMain`: abort with exit
code 1 when no session id was passed; otherwise load the state file, pick
the title and default message for the mode (`--input-mode` sets
`g_inputMode`), normalize the message, run the toast (whose primary click
performs `ActivateWindow` on the loaded state), then delete the state file
and exit 0. -/
def notifyShowInvocation (isWindow isWT : Int → Bool) (inputMode : Bool)
    (sessionId : List Char) (store : Store) : ShowResult × Store :=
  if sessionId = [] then
    (⟨1, "Claude Code".data, "Task completed".data, .noop⟩, store)
  else
    let st := loadState isWindow isWT (store sessionId)
    let title :=
      if inputMode then "Input Required".data else "Claude Code".data
    let msg0 :=
      if inputMode then
        if st.userPrompt = [] then "Claude needs your input".data
        else st.userPrompt
      else
        if st.userPrompt = [] then "Task completed".data else st.userPrompt
    (⟨0, title, normalizeMessage msg0, activateWindow isWindow st⟩,
      eraseState store sessionId)

/-! ## Helper lemmas about the message normalization -/

/-- Characters produced by the substitution loop are never `\n` or `\r`. -/
lemma substituteNewlines_clean (s : List Char) :
    ∀ c ∈ substituteNewlines s, c ≠ '\n' ∧ c ≠ '\r' := by
  intro c hc
  simp only [substituteNewlines, List.mem_map] at hc
  obtain ⟨c0, -, hc0⟩ := hc
  by_cases h : (c0 = '\n' || c0 = '\r') = true
  · rw [if_pos h] at hc0
    subst hc0
    exact ⟨by decide, by decide⟩
  · rw [if_neg h] at hc0
    subst hc0
    simp only [Bool.or_eq_true, decide_eq_true_eq, not_or] at h
    exact h

/-- The substitution loop is in-place: it preserves the length. -/
lemma substituteNewlines_length (s : List Char) :
    (substituteNewlines s).length = s.length :=
  List.length_map _ _

/-- A line free of `\n` and `\r` passes the substitution loop unchanged. -/
lemma substituteNewlines_of_clean {s : List Char}
    (h : ∀ c ∈ s, c ≠ '\n' ∧ c ≠ '\r') : substituteNewlines s = s := by
  induction s with
  | nil => rfl
  | cons c cs ih =>
      have hc := h c (List.mem_cons_self c cs)
      have htail : ∀ c2 ∈ cs, c2 ≠ '\n' ∧ c2 ≠ '\r' := fun c2 hc2 =>
        h c2 (List.mem_cons_of_mem _ hc2)
      have hcond : ¬ ((c = '\n' || c = '\r') = true) := by
        simp only [Bool.or_eq_true, decide_eq_true_eq, not_or]
        exact hc
      unfold substituteNewlines at ih ⊢
      simp only [List.map_cons]
      rw [if_neg hcond, ih htail]

/-! ## C8 -/

/-- C8.  Display normalization of a free-text field: every `\n` or `\r` in
the field is rendered as a space (the displayed message contains neither,
and position `i` of the substituted text is exactly position `i` of the
field with `\n`/`\r` mapped to a space); when the substituted text exceeds
the display cap of 35 characters the displayed message is its 35-character
truncation with the ellipsis marker `"..."` appended, and otherwise it is
the substituted text itself. -/
theorem C8_message_normalization (s : List Char) :
    (∀ c ∈ normalizeMessage s, c ≠ '\n' ∧ c ≠ '\r') ∧
    (substituteNewlines s).length = s.length ∧
    (∀ i : Nat, (substituteNewlines s).get? i =
      (s.get? i).map fun c => if c = '\n' || c = '\r' then ' ' else c) ∧
    ((substituteNewlines s).length > maxLen →
      normalizeMessage s = (substituteNewlines s).take maxLen ++
        "...".data) ∧
    ((substituteNewlines s).length ≤ maxLen →
      normalizeMessage s = substituteNewlines s) := by
  refine ⟨?_, substituteNewlines_length s, ?_, ?_, ?_⟩
  · intro c hc
    unfold normalizeMessage truncateWithEllipsis at hc
    by_cases h : (substituteNewlines s).length > maxLen
    · rw [if_pos h] at hc
      rcases List.mem_append.mp hc with h1 | h2
      · exact substituteNewlines_clean s c (List.mem_of_mem_take h1)
      · fin_cases h2 <;> exact ⟨by decide, by decide⟩
    · rw [if_neg h] at hc
      exact substituteNewlines_clean s c hc
  · intro i
    unfold substituteNewlines
    exact List.get?_map _ _ _
  · intro h
    unfold normalizeMessage truncateWithEllipsis
    rw [if_pos h]
  · intro h
    unfold normalizeMessage truncateWithEllipsis
    rw [if_neg (not_lt.mpr h)]

/-- Witness for C8 at a concrete field containing a newline, a carriage
return and 40 characters after substitution. -/
theorem C8_message_normalization_witness :
    (∀ c ∈ normalizeMessage
        "line one\rline two with quite many characters".data,
        c ≠ '\n' ∧ c ≠ '\r') ∧
    (substituteNewlines
        "line one\rline two with quite many characters".data).length =
      ("line one\rline two with quite many characters".data).length ∧
    (∀ i : Nat,
      (substituteNewlines
        "line one\rline two with quite many characters".data).get? i =
      (("line one\rline two with quite many characters".data).get? i).map
        fun c => if c = '\n' || c = '\r' then ' ' else c) ∧
    ((substituteNewlines
        "line one\rline two with quite many characters".data).length >
        maxLen →
      normalizeMessage
          "line one\rline two with quite many characters".data =
        (substituteNewlines
          "line one\rline two with quite many characters".data).take
            maxLen ++ "...".data) ∧
    ((substituteNewlines
        "line one\rline two with quite many characters".data).length ≤
        maxLen →
      normalizeMessage
          "line one\rline two with quite many characters".data =
        substituteNewlines
          "line one\rline two with quite many characters".data) :=
  C8_message_normalization
    "line one\rline two with quite many characters".data

/-! ## Helper lemmas for the reposition animation -/

/-- Bounds of C truncating division by 5 for a nonnegative dividend. -/
lemma tdiv5_nonneg_bounds (a : Int) (ha : 0 ≤ a) :
    0 ≤ tdiv5 a ∧ 5 * tdiv5 a ≤ a ∧ a < 5 * tdiv5 a + 5 := by
  unfold tdiv5
  rw [if_pos ha]
  have h1 := Int.ediv_add_emod a 5
  have h2 := Int.emod_nonneg a (by norm_num : (5 : Int) ≠ 0)
  have h3 := Int.emod_lt_of_pos a (by norm_num : (0 : Int) < 5)
  refine ⟨Int.ediv_nonneg ha (by norm_num), by omega, by omega⟩

/-- Bounds of C truncating division by 5 for a nonpositive dividend. -/
lemma tdiv5_nonpos_bounds (a : Int) (ha : a ≤ 0) :
    tdiv5 a ≤ 0 ∧ a ≤ 5 * tdiv5 a ∧ 5 * tdiv5 a - 5 < a := by
  unfold tdiv5
  by_cases h0 : 0 ≤ a
  · have : a = 0 := le_antisymm ha h0
    subst this
    norm_num
  · rw [if_neg h0]
    have hna : 0 ≤ -a := by omega
    have h1 := Int.ediv_add_emod (-a) 5
    have h2 := Int.emod_nonneg (-a) (by norm_num : (5 : Int) ≠ 0)
    have h3 := Int.emod_lt_of_pos (-a) (by norm_num : (0 : Int) < 5)
    have h4 := Int.ediv_nonneg hna (by norm_num : (0 : Int) ≤ 5)
    refine ⟨by omega, by omega, by omega⟩

/-- Each animation tick strictly shrinks the distance to the target. -/
lemma animateStep_decreases (t c : Int) (h : c ≠ t) :
    (t - (animateStep t c).1).natAbs < (t - c).natAbs := by
  unfold animateStep
  rw [if_neg h]
  simp only []
  rcases lt_trichotomy c t with hlt | heq | hgt
  · have hb := tdiv5_nonneg_bounds ((t - c) * 2) (by omega)
    split_ifs with h0 hp hs hs <;> omega
  · exact absurd heq h
  · have hb := tdiv5_nonpos_bounds ((t - c) * 2) (by omega)
    split_ifs with h0 hp hs hs <;> omega

/-- The tick is a fixpoint at the target and disarms the timer there. -/
lemma animateStep_at_target (t : Int) : animateStep t t = (t, false) := by
  simp [animateStep]

/-- After enough ticks the position is exactly the target. -/
lemma animIter_reach :
    ∀ (m : Nat) (t c : Int), (t - c).natAbs ≤ m → animIter t m c = t := by
  intro m
  induction m with
  | zero =>
      intro t c hc
      have : c = t := by omega
      simpa [animIter] using this
  | succ m ih =>
      intro t c hc
      by_cases hct : c = t
      · subst hct
        rw [animIter, animateStep_at_target]
        exact ih c c (by omega)
      · rw [animIter]
        exact ih t _ (by
          have := animateStep_decreases t c hct
          omega)

/-! ## C9 -/

/-- C9.  Termination of the reposition animation: starting from any current
coordinate, `(targetY - currentY).natAbs` ticks of `AnimateToPosition`
suffice to land exactly on the target coordinate, and a tick leaves the
`TIMER_REPOSITION` timer disarmed precisely when the position after the
tick is the target (including the degenerate tick that starts at the
target). -/
theorem C9_animation_terminates (targetY currentY : Int) :
    animIter targetY ((targetY - currentY).natAbs) currentY = targetY ∧
    ((animateStep targetY currentY).2 = false ↔
      (animateStep targetY currentY).1 = targetY) := by
  constructor
  · exact animIter_reach _ targetY currentY le_rfl
  · unfold animateStep
    by_cases h : currentY = targetY
    · rw [if_pos h]
      simpa using h
    · rw [if_neg h]
      simp only []
      split_ifs <;> simp

/-! ## Concrete fixtures used by the witnesses -/

/-- A sample toast rectangle (300 wide, 80 tall). -/
def sampleRect : Rect := ⟨0, 400, 300, 480⟩

/-- A sample peer sitting closer to a bottom taskbar. -/
def samplePeer : ToastInfo := ⟨7, ⟨0, 480, 300, 560⟩⟩

/-- A sample handler environment (bottom taskbar, one peer). -/
def sampleEnv : ToastEnv := ⟨.bottom, sampleRect, [samplePeer], 80, 300, 1⟩

/-- A sample per-instance state (mid-fade, not the bottom toast). -/
def sampleState : ToastState :=
  { alpha := 10, isFading := true, mouseInside := false,
    isBottomToast := false, targetY := 400, clicked := false,
    startFadeOn := false, fadeOn := true, repositionOn := false,
    checkBottomOn := true }

/-! ## C4 -/

/-- C4.  Every closing path — the fade-out tick reaching the opacity floor,
the close button, a primary click, and a right-click — posts the same
closing broadcast (a `WM_TOAST_CHECK_POSITION` carrying the closing toast's
rectangle top) to every currently discovered peer and destroys the window;
on receipt, a peer farther from the taskbar edge than the closed rectangle
(smaller top for a bottom taskbar, larger top for a top taskbar) sets its
target coordinate to its own top shifted by exactly one notification height
(`g_windowHeight`) toward the edge and arms the reposition timer, while a
peer not farther from the edge keeps its target coordinate and reposition
timer untouched. -/
theorem C4_closing_broadcast_and_reflow (env : ToastEnv) (st : ToastState)
    (fadeStep : Int) (x y closedTop : Int)
    (hfade : st.alpha ≤ fadeStep) :
    ((onTimerFade fadeStep env st).posted =
        notifyOtherToastsClosing env.myRect.top env.peers ∧
      (onLButtonUp env st x y).posted =
        notifyOtherToastsClosing env.myRect.top env.peers ∧
      (onRButtonUp env st).posted =
        notifyOtherToastsClosing env.myRect.top env.peers ∧
      notifyOtherToastsClosing env.myRect.top env.peers =
        env.peers.map fun t => ⟨t.hwnd, .checkPosition env.myRect.top⟩) ∧
    ((onTimerFade fadeStep env st).destroyed = true ∧
      (onLButtonUp env st x y).destroyed = true ∧
      (onRButtonUp env st).destroyed = true) ∧
    (env.edge = .bottom → env.myRect.top < closedTop →
      (onCheckPosition env st closedTop).state.targetY =
          env.myRect.top + env.height ∧
        (onCheckPosition env st closedTop).state.repositionOn = true) ∧
    (env.edge = .bottom → ¬ env.myRect.top < closedTop →
      (onCheckPosition env st closedTop).state.targetY = st.targetY ∧
        (onCheckPosition env st closedTop).state.repositionOn =
          st.repositionOn) ∧
    (env.edge = .top → closedTop < env.myRect.top →
      (onCheckPosition env st closedTop).state.targetY =
          env.myRect.top - env.height ∧
        (onCheckPosition env st closedTop).state.repositionOn = true) ∧
    (env.edge = .top → ¬ closedTop < env.myRect.top →
      (onCheckPosition env st closedTop).state.targetY = st.targetY ∧
        (onCheckPosition env st closedTop).state.repositionOn =
          st.repositionOn) := by
  have hnot : ¬ st.alpha > fadeStep := not_lt.mpr hfade
  refine ⟨⟨?_, ?_, rfl, rfl⟩, ⟨?_, ?_, rfl⟩, ?_, ?_, ?_, ?_⟩
  · rw [onTimerFade, if_neg hnot]
  · unfold onLButtonUp
    split_ifs <;> rfl
  · rw [onTimerFade, if_neg hnot]
  · unfold onLButtonUp
    split_ifs <;> rfl
  · intro hedge hfar
    unfold onCheckPosition
    rw [hedge]
    simp only [if_pos hfar]
    split_ifs <;> exact ⟨rfl, rfl⟩
  · intro hedge hnear
    unfold onCheckPosition
    rw [hedge]
    simp only [if_neg hnear]
    split_ifs <;> exact ⟨rfl, rfl⟩
  · intro hedge hfar
    unfold onCheckPosition
    rw [hedge]
    simp only [if_pos hfar]
    split_ifs <;> exact ⟨rfl, rfl⟩
  · intro hedge hnear
    unfold onCheckPosition
    rw [hedge]
    simp only [if_neg hnear]
    split_ifs <;> exact ⟨rfl, rfl⟩

/-- Witness for C4 at a concrete bottom-taskbar environment in which the
receiving toast sits farther from the edge than the closed rectangle. -/
theorem C4_closing_broadcast_and_reflow_witness :
    ((onTimerFade 15 sampleEnv sampleState).posted =
        notifyOtherToastsClosing sampleEnv.myRect.top sampleEnv.peers ∧
      (onLButtonUp sampleEnv sampleState 5 5).posted =
        notifyOtherToastsClosing sampleEnv.myRect.top sampleEnv.peers ∧
      (onRButtonUp sampleEnv sampleState).posted =
        notifyOtherToastsClosing sampleEnv.myRect.top sampleEnv.peers ∧
      notifyOtherToastsClosing sampleEnv.myRect.top sampleEnv.peers =
        sampleEnv.peers.map fun t =>
          ⟨t.hwnd, .checkPosition sampleEnv.myRect.top⟩) ∧
    ((onTimerFade 15 sampleEnv sampleState).destroyed = true ∧
      (onLButtonUp sampleEnv sampleState 5 5).destroyed = true ∧
      (onRButtonUp sampleEnv sampleState).destroyed = true) ∧
    (sampleEnv.edge = .bottom → sampleEnv.myRect.top < 420 →
      (onCheckPosition sampleEnv sampleState 420).state.targetY =
          sampleEnv.myRect.top + sampleEnv.height ∧
        (onCheckPosition sampleEnv sampleState 420).state.repositionOn =
          true) ∧
    (sampleEnv.edge = .bottom → ¬ sampleEnv.myRect.top < 420 →
      (onCheckPosition sampleEnv sampleState 420).state.targetY =
          sampleState.targetY ∧
        (onCheckPosition sampleEnv sampleState 420).state.repositionOn =
          sampleState.repositionOn) ∧
    (sampleEnv.edge = .top → 420 < sampleEnv.myRect.top →
      (onCheckPosition sampleEnv sampleState 420).state.targetY =
          sampleEnv.myRect.top - sampleEnv.height ∧
        (onCheckPosition sampleEnv sampleState 420).state.repositionOn =
          true) ∧
    (sampleEnv.edge = .top → ¬ 420 < sampleEnv.myRect.top →
      (onCheckPosition sampleEnv sampleState 420).state.targetY =
          sampleState.targetY ∧
        (onCheckPosition sampleEnv sampleState 420).state.repositionOn =
          sampleState.repositionOn) :=
  C4_closing_broadcast_and_reflow sampleEnv sampleState 15 5 5 420
    (by decide)

/-! ## C5 -/

/-- C5.  Pointer-enter on a toast broadcasts the pause message to the toast
itself and every peer; on receiving a pause, a fading toast restores the
full opacity 230 and disarms its fade tick, and every toast disarms its
pending display timer.  Pointer-leave broadcasts the resume message to the
toast itself and every peer; on receiving a resume — with the cached
`g_isBottomToast` flag agreeing with the live `IsBottomToast` computation —
exactly a toast that currently satisfies the anchor predicate and has no
pointer over it rearms its display timer, and any other toast is left
completely unchanged. -/
theorem C5_pause_resume (env : ToastEnv) (st : ToastState) :
    (st.mouseInside = false →
      (onMouseMove env st).posted =
        notifyAllToastsPauseTimer env.selfHwnd true env.peers ∧
      (onMouseMove env st).posted =
        ⟨env.selfHwnd, .pauseTimer true⟩ ::
          env.peers.map fun t => ⟨t.hwnd, .pauseTimer true⟩) ∧
    ((onMouseLeave env st).posted =
      notifyAllToastsPauseTimer env.selfHwnd false env.peers) ∧
    ((onPauseTimer st true).state.startFadeOn = false) ∧
    (st.isFading = true →
      (onPauseTimer st true).state.alpha = 230 ∧
      (onPauseTimer st true).state.fadeOn = false ∧
      (onPauseTimer st true).state.isFading = false) ∧
    (st.isBottomToast = IsBottomToast env.edge env.myRect env.peers →
      ((IsBottomToast env.edge env.myRect env.peers = true ∧
          st.mouseInside = false) →
        (onPauseTimer st false).state.startFadeOn = true) ∧
      (¬ (IsBottomToast env.edge env.myRect env.peers = true ∧
          st.mouseInside = false) →
        onPauseTimer st false = quietly st)) := by
  refine ⟨?_, rfl, ?_, ?_, ?_⟩
  · intro hout
    have hc : (!st.mouseInside) = true := by rw [hout]; rfl
    exact ⟨by simp [onMouseMove, hc],
      by simp [onMouseMove, hc, notifyAllToastsPauseTimer]⟩
  · simp [onPauseTimer, quietly]
  · intro hfading
    simp [onPauseTimer, quietly, hfading]
  · intro hflag
    constructor
    · rintro ⟨hanchor, hout⟩
      have hcond : (st.isBottomToast && !st.mouseInside) = true := by
        rw [hflag, hanchor, hout]
        rfl
      simp [onPauseTimer, quietly, hcond]
    · intro hnot
      have hcond : ¬ ((st.isBottomToast && !st.mouseInside) = true) := by
        intro hc
        apply hnot
        rw [hflag] at hc
        simp only [Bool.and_eq_true, Bool.not_eq_true'] at hc
        exact hc
      simp [onPauseTimer, quietly, hcond]

/-- Witness for C5 at a concrete environment with one peer closer to the
edge, so the receiving toast is not the anchor and its cached flag agrees
with the live computation. -/
theorem C5_pause_resume_witness :
    (sampleState.mouseInside = false →
      (onMouseMove sampleEnv sampleState).posted =
        notifyAllToastsPauseTimer sampleEnv.selfHwnd true
          sampleEnv.peers ∧
      (onMouseMove sampleEnv sampleState).posted =
        ⟨sampleEnv.selfHwnd, .pauseTimer true⟩ ::
          sampleEnv.peers.map fun t => ⟨t.hwnd, .pauseTimer true⟩) ∧
    ((onMouseLeave sampleEnv sampleState).posted =
      notifyAllToastsPauseTimer sampleEnv.selfHwnd false
        sampleEnv.peers) ∧
    ((onPauseTimer sampleState true).state.startFadeOn = false) ∧
    (sampleState.isFading = true →
      (onPauseTimer sampleState true).state.alpha = 230 ∧
      (onPauseTimer sampleState true).state.fadeOn = false ∧
      (onPauseTimer sampleState true).state.isFading = false) ∧
    (sampleState.isBottomToast =
        IsBottomToast sampleEnv.edge sampleEnv.myRect sampleEnv.peers →
      ((IsBottomToast sampleEnv.edge sampleEnv.myRect sampleEnv.peers =
            true ∧
          sampleState.mouseInside = false) →
        (onPauseTimer sampleState false).state.startFadeOn = true) ∧
      (¬ (IsBottomToast sampleEnv.edge sampleEnv.myRect sampleEnv.peers =
            true ∧
          sampleState.mouseInside = false) →
        onPauseTimer sampleState false = quietly sampleState)) :=
  C5_pause_resume sampleEnv sampleState

/-! ## Helper lemmas for the anchor predicate -/

/-- Unfolding of `IsBottomToast` for a bottom taskbar. -/
lemma isBottomToast_bottom_iff (r : Rect) (ts : List ToastInfo) :
    IsBottomToast .bottom r ts = true ↔
      ∀ t ∈ ts, ¬ r.bottom < t.rect.bottom := by
  unfold IsBottomToast
  cases ts with
  | nil => simp
  | cons a l =>
      simp only [List.isEmpty_cons, if_false, Bool.false_eq_true,
        List.all_eq_true]
      constructor
      · intro h t ht hlt
        have := h t ht
        rw [if_pos hlt] at this
        exact absurd this (by decide)
      · intro h t ht
        rw [if_neg (h t ht)]

/-- Unfolding of `IsBottomToast` for a top taskbar. -/
lemma isBottomToast_top_iff (r : Rect) (ts : List ToastInfo) :
    IsBottomToast .top r ts = true ↔
      ∀ t ∈ ts, ¬ t.rect.top < r.top := by
  unfold IsBottomToast
  cases ts with
  | nil => simp
  | cons a l =>
      simp only [List.isEmpty_cons, if_false, Bool.false_eq_true,
        List.all_eq_true]
      constructor
      · intro h t ht hlt
        have := h t ht
        rw [if_pos hlt] at this
        exact absurd this (by decide)
      · intro h t ht
        rw [if_neg (h t ht)]

/-- Removing index `i` keeps every element at an index other than `i`. -/
lemma get_mem_eraseIdx :
    ∀ (l : List ToastInfo) (i j : Nat) (hj : j < l.length), i ≠ j →
      l.get ⟨j, hj⟩ ∈ l.eraseIdx i := by
  intro l
  induction l with
  | nil =>
      intro i j hj _
      exact absurd hj (by simp)
  | cons a l ih =>
      intro i j hj hij
      cases i with
      | zero =>
          cases j with
          | zero => exact absurd rfl hij
          | succ j2 =>
              simp only [List.eraseIdx]
              exact List.get_mem l j2 _
      | succ i2 =>
          cases j with
          | zero =>
              simp only [List.eraseIdx, List.get]
              exact List.mem_cons_self a _
          | succ j2 =>
              simp only [List.eraseIdx, List.get]
              exact List.mem_cons_of_mem a
                (ih i2 j2 (by simpa using hj) (fun h => hij (by rw [h])))

/-! ## C2 -/

/-- C2, amended.  `IsBottomToast` is true iff no discovered peer lies
strictly closer to the taskbar edge (strictly larger bottom for a bottom
taskbar, strictly smaller top for a top taskbar); and in any configuration
of at least one live instance whose edge coordinates are pairwise distinct
(as is the case for non-overlapping stacked rectangles), exactly one
instance — each judging against the others as its peer set — satisfies the
anchor predicate.  With coinciding rectangles more than one instance can
satisfy it, which is why distinctness is assumed. -/
theorem C2_anchor_unique (edge : Edge) (insts : List ToastInfo)
    (hne : insts ≠ [])
    (hsep : ∀ i j : Fin insts.length, i ≠ j →
      (insts.get i).rect.top ≠ (insts.get j).rect.top ∧
      (insts.get i).rect.bottom ≠ (insts.get j).rect.bottom) :
    (∀ r ts, IsBottomToast .bottom r ts = true ↔
      ∀ t ∈ ts, ¬ r.bottom < t.rect.bottom) ∧
    (∀ r ts, IsBottomToast .top r ts = true ↔
      ∀ t ∈ ts, ¬ t.rect.top < r.top) ∧
    ∃! i : Fin insts.length,
      IsBottomToast edge (insts.get i).rect (insts.eraseIdx i.val) =
        true := by
  have hn : 0 < insts.length := List.length_pos.mpr hne
  haveI : Nonempty (Fin insts.length) := ⟨⟨0, hn⟩⟩
  refine ⟨isBottomToast_bottom_iff, isBottomToast_top_iff, ?_⟩
  cases edge with
  | bottom =>
      obtain ⟨m, -, hm⟩ := Finset.exists_max_image Finset.univ
        (fun i : Fin insts.length => (insts.get i).rect.bottom)
        Finset.univ_nonempty
      refine ⟨m, ?_, ?_⟩
      · show IsBottomToast .bottom (insts.get m).rect
          (insts.eraseIdx m.val) = true
        rw [isBottomToast_bottom_iff]
        intro t ht
        obtain ⟨j, hj⟩ := List.mem_iff_get.mp
          (List.eraseIdx_subset insts m.val ht)
        rw [← hj]
        exact not_lt.mpr (hm j (Finset.mem_univ j))
      · intro i hi
        by_contra hne2
        have hmem : insts.get m ∈ insts.eraseIdx i.val :=
          get_mem_eraseIdx insts i.val m.val m.isLt
            (fun h => hne2 (Fin.ext h))
        have hi2 : IsBottomToast .bottom (insts.get i).rect
            (insts.eraseIdx i.val) = true := hi
        rw [isBottomToast_bottom_iff] at hi2
        have h1 := hi2 _ hmem
        have h2 := hm i (Finset.mem_univ i)
        exact (hsep i m (fun h => hne2 h)).2 (le_antisymm h2 (not_lt.mp h1))
  | top =>
      obtain ⟨m, -, hm⟩ := Finset.exists_min_image Finset.univ
        (fun i : Fin insts.length => (insts.get i).rect.top)
        Finset.univ_nonempty
      refine ⟨m, ?_, ?_⟩
      · show IsBottomToast .top (insts.get m).rect
          (insts.eraseIdx m.val) = true
        rw [isBottomToast_top_iff]
        intro t ht
        obtain ⟨j, hj⟩ := List.mem_iff_get.mp
          (List.eraseIdx_subset insts m.val ht)
        rw [← hj]
        exact not_lt.mpr (hm j (Finset.mem_univ j))
      · intro i hi
        by_contra hne2
        have hmem : insts.get m ∈ insts.eraseIdx i.val :=
          get_mem_eraseIdx insts i.val m.val m.isLt
            (fun h => hne2 (Fin.ext h))
        have hi2 : IsBottomToast .top (insts.get i).rect
            (insts.eraseIdx i.val) = true := hi
        rw [isBottomToast_top_iff] at hi2
        have h1 := hi2 _ hmem
        have h2 := hm i (Finset.mem_univ i)
        exact (hsep i m (fun h => hne2 h)).1 (le_antisymm (not_lt.mp h1) h2)

/-- Two live instances with identical rectangles (the stacking race the
source does not resolve: both computed the same position). -/
def twinConfig : List ToastInfo :=
  [⟨1, ⟨0, 400, 300, 480⟩⟩, ⟨2, ⟨0, 400, 300, 480⟩⟩]

/-- Counterexample to C2 as stated: in a configuration of two live
instances with identical rectangles, both satisfy `IsBottomToast` (neither
sees a peer strictly closer to the edge), so it is not true that exactly
one live instance satisfies the anchor predicate at every instant with at
least one instance. -/
theorem C2_counterexample :
    ¬ ∃! i : Fin twinConfig.length,
      IsBottomToast .bottom (twinConfig.get i).rect
        (twinConfig.eraseIdx i.val) = true := by
  rintro ⟨i, -, huniq⟩
  have h0 := huniq ⟨0, by decide⟩ (by decide)
  have h1 := huniq ⟨1, by decide⟩ (by decide)
  exact absurd (h0.trans h1.symm) (by decide)

/-- Witness for C2 at a concrete two-instance bottom-taskbar stack with
distinct coordinates. -/
theorem C2_anchor_unique_witness :
    (∀ r ts, IsBottomToast .bottom r ts = true ↔
      ∀ t ∈ ts, ¬ r.bottom < t.rect.bottom) ∧
    (∀ r ts, IsBottomToast .top r ts = true ↔
      ∀ t ∈ ts, ¬ t.rect.top < r.top) ∧
    ∃! i : Fin ([⟨1, ⟨0, 400, 300, 480⟩⟩, ⟨2, ⟨0, 320, 300, 400⟩⟩] :
        List ToastInfo).length,
      IsBottomToast .bottom
        (([⟨1, ⟨0, 400, 300, 480⟩⟩, ⟨2, ⟨0, 320, 300, 400⟩⟩] :
          List ToastInfo).get i).rect
        (([⟨1, ⟨0, 400, 300, 480⟩⟩, ⟨2, ⟨0, 320, 300, 400⟩⟩] :
          List ToastInfo).eraseIdx i.val) = true :=
  C2_anchor_unique .bottom
    [⟨1, ⟨0, 400, 300, 480⟩⟩, ⟨2, ⟨0, 320, 300, 400⟩⟩]
    (by decide) (by decide)

/-! ## Helper lemmas for the stacking fold -/

/-- Properties of the minimum-top loop of `CalculateStackedY` (bottom
taskbar): the running minimum never exceeds its start value, bounds every
peer top from below, and is either the start value or an actual peer top. -/
lemma stackFoldBottom (l : List ToastInfo) :
    ∀ init : Int,
      (l.foldl (fun acc t => if t.rect.top < acc then t.rect.top else acc)
          init) ≤ init ∧
      (∀ t ∈ l,
        (l.foldl (fun acc t => if t.rect.top < acc then t.rect.top else acc)
          init) ≤ t.rect.top) ∧
      ((l.foldl (fun acc t => if t.rect.top < acc then t.rect.top else acc)
          init) = init ∨
        ∃ t ∈ l,
          (l.foldl
            (fun acc t => if t.rect.top < acc then t.rect.top else acc)
            init) = t.rect.top) := by
  induction l with
  | nil => intro init; exact ⟨le_rfl, by simp, Or.inl rfl⟩
  | cons a l ih =>
      intro init
      simp only [List.foldl_cons]
      obtain ⟨ih1, ih2, ih3⟩ :=
        ih (if a.rect.top < init then a.rect.top else init)
      have hinit : (if a.rect.top < init then a.rect.top else init) ≤ init ∧
          (if a.rect.top < init then a.rect.top else init) ≤ a.rect.top := by
        split_ifs with h
        · exact ⟨le_of_lt h, le_rfl⟩
        · exact ⟨le_rfl, not_lt.mp h⟩
      refine ⟨le_trans ih1 hinit.1, ?_, ?_⟩
      · intro t ht
        rcases List.mem_cons.mp ht with h | h
        · subst h; exact le_trans ih1 hinit.2
        · exact ih2 t h
      · rcases ih3 with h | ⟨t, ht, h⟩
        · rw [h]
          split_ifs with h2
          · exact Or.inr ⟨a, List.mem_cons_self a l, rfl⟩
          · exact Or.inl rfl
        · exact Or.inr ⟨t, List.mem_cons_of_mem a ht, h⟩

/-- Properties of the maximum-bottom loop of `CalculateStackedY` (top
taskbar). -/
lemma stackFoldTop (l : List ToastInfo) :
    ∀ init : Int,
      init ≤
        (l.foldl
          (fun acc t => if t.rect.bottom > acc then t.rect.bottom else acc)
          init) ∧
      (∀ t ∈ l, t.rect.bottom ≤
        (l.foldl
          (fun acc t => if t.rect.bottom > acc then t.rect.bottom else acc)
          init)) ∧
      ((l.foldl
          (fun acc t => if t.rect.bottom > acc then t.rect.bottom else acc)
          init) = init ∨
        ∃ t ∈ l,
          (l.foldl
            (fun acc t => if t.rect.bottom > acc then t.rect.bottom else acc)
            init) = t.rect.bottom) := by
  induction l with
  | nil => intro init; exact ⟨le_rfl, by simp, Or.inl rfl⟩
  | cons a l ih =>
      intro init
      simp only [List.foldl_cons]
      obtain ⟨ih1, ih2, ih3⟩ :=
        ih (if a.rect.bottom > init then a.rect.bottom else init)
      have hinit :
          init ≤ (if a.rect.bottom > init then a.rect.bottom else init) ∧
          a.rect.bottom ≤
            (if a.rect.bottom > init then a.rect.bottom else init) := by
        split_ifs with h
        · exact ⟨le_of_lt h, le_rfl⟩
        · exact ⟨le_rfl, not_lt.mp h⟩
      refine ⟨le_trans hinit.1 ih1, ?_, ?_⟩
      · intro t ht
        rcases List.mem_cons.mp ht with h | h
        · subst h; exact le_trans hinit.2 ih1
        · exact ih2 t h
      · rcases ih3 with h | ⟨t, ht, h⟩
        · rw [h]
          split_ifs with h2
          · exact Or.inr ⟨a, List.mem_cons_self a l, rfl⟩
          · exact Or.inl rfl
        · exact Or.inr ⟨t, List.mem_cons_of_mem a ht, h⟩

/-! ## C3 -/

/-- C3, amended.  `CalculateStackedY` returns `GetBaseY` for an empty peer
set.  For a non-empty peer set lying within the work area it returns the
coordinate immediately adjacent, with zero gap and on the side away from
the taskbar edge, to the peer farthest from the edge (the smallest top for
a bottom taskbar, the largest bottom for a top taskbar) — not to the peer
closest to the edge, as claimed.  Consequently the new rectangle never
overlaps any peer rectangle, and it is strictly farther from the edge than
`GetBaseY` as soon as some peer intrudes into the work area. -/
theorem C3_stacked_position (workArea : Rect) (height : Int)
    (toasts : List ToastInfo) (hne : toasts ≠ []) :
    (∀ e wa h,
      CalculateStackedY e wa h ([] : List ToastInfo) = GetBaseY e wa h) ∧
    ((∀ t ∈ toasts, t.rect.top ≤ workArea.bottom) →
      (∃ t ∈ toasts,
        CalculateStackedY .bottom workArea height toasts =
          t.rect.top - height ∧
        ∀ t2 ∈ toasts, t.rect.top ≤ t2.rect.top) ∧
      (∀ t ∈ toasts,
        CalculateStackedY .bottom workArea height toasts + height ≤
          t.rect.top) ∧
      ((∃ t ∈ toasts, t.rect.top < workArea.bottom) →
        CalculateStackedY .bottom workArea height toasts <
          GetBaseY .bottom workArea height)) ∧
    ((∀ t ∈ toasts, workArea.top ≤ t.rect.bottom) →
      (∃ t ∈ toasts,
        CalculateStackedY .top workArea height toasts = t.rect.bottom ∧
        ∀ t2 ∈ toasts, t2.rect.bottom ≤ t.rect.bottom) ∧
      (∀ t ∈ toasts,
        t.rect.bottom ≤ CalculateStackedY .top workArea height toasts) ∧
      ((∃ t ∈ toasts, workArea.top < t.rect.bottom) →
        GetBaseY .top workArea height <
          CalculateStackedY .top workArea height toasts)) := by
  have hnemp : toasts.isEmpty = false := by
    cases toasts with
    | nil => exact absurd rfl hne
    | cons a l => rfl
  refine ⟨fun e wa h => by cases e <;> rfl, ?_, ?_⟩
  · intro hwa
    obtain ⟨h1, h2, h3⟩ := stackFoldBottom toasts workArea.bottom
    have hval : CalculateStackedY .bottom workArea height toasts =
        (toasts.foldl
          (fun acc t => if t.rect.top < acc then t.rect.top else acc)
          workArea.bottom) - height := by
      unfold CalculateStackedY
      rw [hnemp]
      rfl
    refine ⟨?_, ?_, ?_⟩
    · rcases h3 with h | ⟨t, ht, h⟩
      · obtain ⟨t0, ht0⟩ := List.exists_mem_of_ne_nil toasts hne
        have : (toasts.foldl
            (fun acc t => if t.rect.top < acc then t.rect.top else acc)
            workArea.bottom) = t0.rect.top :=
          le_antisymm (h2 t0 ht0) (by rw [h]; exact hwa t0 ht0)
        exact ⟨t0, ht0, by rw [hval, this], fun t2 ht2 => by
          rw [← this]; exact h2 t2 ht2⟩
      · exact ⟨t, ht, by rw [hval, h], fun t2 ht2 => by
          rw [← h]; exact h2 t2 ht2⟩
    · intro t ht
      rw [hval]
      have := h2 t ht
      omega
    · rintro ⟨t, ht, hlt⟩
      rw [hval]
      simp only [GetBaseY]
      have := h2 t ht
      omega
  · intro hwa
    obtain ⟨h1, h2, h3⟩ := stackFoldTop toasts workArea.top
    have hval : CalculateStackedY .top workArea height toasts =
        toasts.foldl
          (fun acc t => if t.rect.bottom > acc then t.rect.bottom else acc)
          workArea.top := by
      unfold CalculateStackedY
      rw [hnemp]
      rfl
    refine ⟨?_, ?_, ?_⟩
    · rcases h3 with h | ⟨t, ht, h⟩
      · obtain ⟨t0, ht0⟩ := List.exists_mem_of_ne_nil toasts hne
        have : (toasts.foldl
            (fun acc t =>
              if t.rect.bottom > acc then t.rect.bottom else acc)
            workArea.top) = t0.rect.bottom :=
          le_antisymm (by rw [h]; exact hwa t0 ht0) (h2 t0 ht0)
        exact ⟨t0, ht0, by rw [hval, this], fun t2 ht2 => by
          rw [← this]; exact h2 t2 ht2⟩
      · exact ⟨t, ht, by rw [hval, h], fun t2 ht2 => by
          rw [← h]; exact h2 t2 ht2⟩
    · intro t ht
      rw [hval]
      exact h2 t ht
    · rintro ⟨t, ht, hlt⟩
      rw [hval]
      simp only [GetBaseY]
      have := h2 t ht
      omega

/-- The peer closest to a bottom taskbar in the two-peer stack used to
refute C3 as stated. -/
def closestPeer : ToastInfo := ⟨1, ⟨220, 520, 300, 600⟩⟩

/-- A second peer stacked directly above `closestPeer`. -/
def fartherPeer : ToastInfo := ⟨2, ⟨220, 440, 300, 520⟩⟩

/-- Counterexample to C3 as stated: with two stacked peers on a bottom
taskbar (tops 520 and 440, height 80, work area bottom 600), the peer
closest to the edge is the one with top 520, and the coordinate immediately
adjacent to it on the side away from the edge is 440; but
`CalculateStackedY` returns 360, the coordinate adjacent to the peer
farthest from the edge. -/
theorem C3_counterexample :
    CalculateStackedY .bottom ⟨0, 0, 300, 600⟩ 80
        [closestPeer, fartherPeer] = 360 ∧
    (∀ t ∈ [closestPeer, fartherPeer],
      t.rect.bottom ≤ closestPeer.rect.bottom) ∧
    closestPeer.rect.top - 80 = 440 ∧
    (360 : Int) ≠ 440 := by
  refine ⟨by decide, by decide, by decide, by decide⟩

/-- Witness for C3 at the concrete two-peer bottom-taskbar stack. -/
theorem C3_stacked_position_witness :
    (∀ e wa h,
      CalculateStackedY e wa h ([] : List ToastInfo) = GetBaseY e wa h) ∧
    ((∀ t ∈ [closestPeer, fartherPeer], t.rect.top ≤ (600 : Int)) →
      (∃ t ∈ [closestPeer, fartherPeer],
        CalculateStackedY .bottom ⟨0, 0, 300, 600⟩ 80
            [closestPeer, fartherPeer] = t.rect.top - 80 ∧
        ∀ t2 ∈ [closestPeer, fartherPeer], t.rect.top ≤ t2.rect.top) ∧
      (∀ t ∈ [closestPeer, fartherPeer],
        CalculateStackedY .bottom ⟨0, 0, 300, 600⟩ 80
            [closestPeer, fartherPeer] + 80 ≤ t.rect.top) ∧
      ((∃ t ∈ [closestPeer, fartherPeer], t.rect.top < (600 : Int)) →
        CalculateStackedY .bottom ⟨0, 0, 300, 600⟩ 80
            [closestPeer, fartherPeer] <
          GetBaseY .bottom ⟨0, 0, 300, 600⟩ 80)) ∧
    ((∀ t ∈ [closestPeer, fartherPeer], (0 : Int) ≤ t.rect.bottom) →
      (∃ t ∈ [closestPeer, fartherPeer],
        CalculateStackedY .top ⟨0, 0, 300, 600⟩ 80
            [closestPeer, fartherPeer] = t.rect.bottom ∧
        ∀ t2 ∈ [closestPeer, fartherPeer],
          t2.rect.bottom ≤ t.rect.bottom) ∧
      (∀ t ∈ [closestPeer, fartherPeer],
        t.rect.bottom ≤
          CalculateStackedY .top ⟨0, 0, 300, 600⟩ 80
            [closestPeer, fartherPeer]) ∧
      ((∃ t ∈ [closestPeer, fartherPeer], (0 : Int) < t.rect.bottom) →
        GetBaseY .top ⟨0, 0, 300, 600⟩ 80 <
          CalculateStackedY .top ⟨0, 0, 300, 600⟩ 80
            [closestPeer, fartherPeer])) :=
  C3_stacked_position ⟨0, 0, 300, 600⟩ 80 [closestPeer, fartherPeer]
    (by decide)

/-! ## C6 -/

/-- C6, amended.  With a missing or malformed session key (the extracted
session id is empty): the `--save` invocation writes no state at all but
still exits 0 (not non-zero, as claimed — `SaveState` returns early and
`WinMain` falls through to `return 0`); the `--notify` / `--input` launcher
exits 1 without spawning the display process; and the `--notify-show`
process exits 1 leaving the store untouched. -/
theorem C6_missing_session (prompt : List Char) (hwnd : Int)
    (runtimeId callerExe : List Char) (store : Store)
    (isWindow isWT : Int → Bool) (inputMode : Bool) :
    saveInvocation [] prompt hwnd runtimeId callerExe store = (0, store) ∧
    notifyLauncher [] = (1, false) ∧
    (notifyShowInvocation isWindow isWT inputMode [] store).1.exitCode =
      1 ∧
    (notifyShowInvocation isWindow isWT inputMode [] store).2 = store :=
  ⟨rfl, rfl, rfl, rfl⟩

/-- Counterexample to C6 as stated: a `--save` invocation whose payload
lacks the session key exits with code 0, not a non-zero code (it does write
no state file, as witnessed by the untouched empty store). -/
theorem C6_counterexample :
    (saveInvocation [] "build finished".data 7 [] []
        (fun _ => none)).1 = 0 ∧
    (saveInvocation [] "build finished".data 7 [] []
        (fun _ => none)).2 = (fun _ => none : Store) :=
  ⟨rfl, rfl⟩

/-! ## C7 -/

/-- C7.  A `--notify-show` invocation with a session key for which no state
record exists terminates normally: `LoadState` finds no file and leaves
every global at its default, the toast shows the default title and message
of its mode (`"Claude Code"` / `"Task completed"` normally,
`"Input Required"` / `"Claude needs your input"` in input mode), the target
window stays unset and a click activates nothing. -/
theorem C7_unknown_session (isWindow isWT : Int → Bool) (inputMode : Bool)
    (k : List Char) (store : Store) (hk : k ≠ [])
    (habsent : store k = none) :
    loadState isWindow isWT (store k) = emptyLoadedState ∧
    (loadState isWindow isWT (store k)).targetWindowHandle = none ∧
    (notifyShowInvocation isWindow isWT inputMode k store).1.title =
      (if inputMode then "Input Required".data
        else "Claude Code".data) ∧
    (notifyShowInvocation isWindow isWT inputMode k store).1.message =
      (if inputMode then "Claude needs your input".data
        else "Task completed".data) ∧
    (notifyShowInvocation isWindow isWT inputMode k store).1.click =
      .noop ∧
    activationTarget
      (notifyShowInvocation isWindow isWT inputMode k store).1.click =
        none ∧
    (notifyShowInvocation isWindow isWT inputMode k store).1.exitCode =
      0 := by
  have hload : loadState isWindow isWT (store k) = emptyLoadedState := by
    rw [habsent]
    rfl
  have hrun : notifyShowInvocation isWindow isWT inputMode k store =
      (⟨0,
        (if inputMode then "Input Required".data
          else "Claude Code".data),
        (if inputMode then "Claude needs your input".data
          else "Task completed".data),
        .noop⟩,
        eraseState store k) := by
    unfold notifyShowInvocation
    rw [if_neg hk, hload]
    cases inputMode with
    | false => rfl
    | true => rfl
  rw [hrun, hload]
  refine ⟨rfl, rfl, rfl, rfl, rfl, rfl, rfl⟩

/-- Witness for C7 at a concrete unknown session key and empty store. -/
theorem C7_unknown_session_witness :
    loadState (fun _ => true) (fun _ => false)
        ((fun _ => none : Store) "abc".data) = emptyLoadedState ∧
    (loadState (fun _ => true) (fun _ => false)
        ((fun _ => none : Store) "abc".data)).targetWindowHandle = none ∧
    (notifyShowInvocation (fun _ => true) (fun _ => false) false
        "abc".data (fun _ => none)).1.title =
      (if false then "Input Required".data else "Claude Code".data) ∧
    (notifyShowInvocation (fun _ => true) (fun _ => false) false
        "abc".data (fun _ => none)).1.message =
      (if false then "Claude needs your input".data
        else "Task completed".data) ∧
    (notifyShowInvocation (fun _ => true) (fun _ => false) false
        "abc".data (fun _ => none)).1.click = .noop ∧
    activationTarget
      (notifyShowInvocation (fun _ => true) (fun _ => false) false
        "abc".data (fun _ => none)).1.click = none ∧
    (notifyShowInvocation (fun _ => true) (fun _ => false) false
        "abc".data (fun _ => none)).1.exitCode = 0 :=
  C7_unknown_session (fun _ => true) (fun _ => false) false "abc".data
    (fun _ => none) (by decide) rfl

/-! ## Helper lemmas: decimal rendering and parsing of the handle line -/

/-- A line with no `\n` and no `\r` character (a single-line field). -/
def cleanLine (l : List Char) : Prop := ∀ c ∈ l, c ≠ '\n' ∧ c ≠ '\r'

/-- Facts about a decimal digit character. -/
lemma digitChar_props (d : Nat) (h : d < 10) :
    (digitChar d).isDigit = true ∧ digitChar d ≠ '\n' ∧
    digitChar d ≠ '\r' ∧ isSpaceChar (digitChar d) = false ∧
    digitChar d ≠ '-' ∧ digitChar d ≠ '+' ∧
    charDigit (digitChar d) = d := by
  interval_cases d <;> exact ⟨rfl, by decide, by decide, by decide,
    by decide, by decide, by decide⟩

/-- Every character of `natCharsAux` is a decimal digit character. -/
lemma natCharsAux_mem :
    ∀ (fuel n : Nat) (c : Char), c ∈ natCharsAux fuel n →
      ∃ d, d < 10 ∧ c = digitChar d := by
  intro fuel
  induction fuel with
  | zero => intro n c hc; exact absurd hc (by simp [natCharsAux])
  | succ fuel ih =>
      intro n c hc
      unfold natCharsAux at hc
      by_cases hn : n = 0
      · rw [if_pos hn] at hc
        exact absurd hc (by simp)
      · rw [if_neg hn] at hc
        rcases List.mem_append.mp hc with h1 | h2
        · exact ih (n / 10) c h1
        · refine ⟨n % 10, Nat.mod_lt n (by norm_num), ?_⟩
          simpa using h2

/-- The digit rendering of `n < 10 ^ k` has at most `k` characters. -/
lemma natCharsAux_length :
    ∀ (fuel k n : Nat), n < 10 ^ k → (natCharsAux fuel n).length ≤ k := by
  intro fuel
  induction fuel with
  | zero => intro k n _; simp [natCharsAux]
  | succ fuel ih =>
      intro k n hn
      unfold natCharsAux
      by_cases h0 : n = 0
      · rw [if_pos h0]; simp
      · rw [if_neg h0]
        cases k with
        | zero =>
            exfalso
            have h1 : n < 1 := by simpa using hn
            omega
        | succ k2 =>
            have hdiv : n / 10 < 10 ^ k2 := by
              rw [Nat.div_lt_iff_lt_mul (by norm_num : 0 < 10)]
              calc n < 10 ^ (k2 + 1) := hn
                _ = 10 ^ k2 * 10 := by rw [pow_succ]
            have := ih k2 (n / 10) hdiv
            simp only [List.length_append, List.length_cons,
              List.length_nil]
            omega

/-- `parseDigits` distributes over an all-digit first part. -/
lemma parseDigits_append (l1 l2 : List Char)
    (h : ∀ c ∈ l1, c.isDigit = true) :
    ∀ acc, parseDigits acc (l1 ++ l2) =
      parseDigits (parseDigits acc l1) l2 := by
  induction l1 with
  | nil => intro acc; rfl
  | cons c l1 ih =>
      intro acc
      have hc := h c (List.mem_cons_self c l1)
      simp only [List.cons_append, parseDigits]
      rw [if_pos hc, if_pos hc]
      exact ih (fun c2 hc2 => h c2 (List.mem_cons_of_mem c hc2)) _

/-- Parsing the digit rendering recovers the number. -/
lemma parse_natCharsAux :
    ∀ (fuel n : Nat), n ≤ fuel → parseDigits 0 (natCharsAux fuel n) = n := by
  intro fuel
  induction fuel with
  | zero =>
      intro n hn
      have : n = 0 := Nat.le_zero.mp hn
      subst this
      rfl
  | succ fuel ih =>
      intro n hn
      unfold natCharsAux
      by_cases h0 : n = 0
      · rw [if_pos h0, h0]; rfl
      · rw [if_neg h0]
        have hall : ∀ c ∈ natCharsAux fuel (n / 10), c.isDigit = true := by
          intro c hc
          obtain ⟨d, hd, rfl⟩ := natCharsAux_mem fuel (n / 10) c hc
          exact (digitChar_props d hd).1
        rw [parseDigits_append _ _ hall]
        have hdivle : n / 10 ≤ fuel := by
          have := Nat.div_lt_self (Nat.pos_of_ne_zero h0)
            (by norm_num : 1 < 10)
          omega
        rw [ih (n / 10) hdivle]
        have hdig := digitChar_props (n % 10) (Nat.mod_lt n (by norm_num))
        simp only [parseDigits]
        rw [if_pos hdig.1, hdig.2.2.2.2.2.2]
        omega

/-- Parsing the `%lld` rendering of a natural number recovers it. -/
lemma parse_natChars (n : Nat) : parseDigits 0 (natChars n) = n := by
  unfold natChars
  by_cases h0 : n = 0
  · rw [if_pos h0, h0]; decide
  · rw [if_neg h0]
    exact parse_natCharsAux (n + 1) n (Nat.le_succ n)

/-- Every character of `natChars` is a decimal digit character. -/
lemma natChars_mem (n : Nat) (c : Char) (hc : c ∈ natChars n) :
    ∃ d, d < 10 ∧ c = digitChar d := by
  unfold natChars at hc
  by_cases h0 : n = 0
  · rw [if_pos h0] at hc
    refine ⟨0, by norm_num, ?_⟩
    simpa using hc
  · rw [if_neg h0] at hc
    exact natCharsAux_mem (n + 1) n c hc

/-- The digit rendering is never empty. -/
lemma natChars_ne_nil (n : Nat) : natChars n ≠ [] := by
  unfold natChars
  by_cases h0 : n = 0
  · rw [if_pos h0]; simp
  · rw [if_neg h0]
    unfold natCharsAux
    rw [if_neg h0]
    simp

/-- The rendered handle line contains no `\n` and no `\r`. -/
lemma intChars_clean (i : Int) : cleanLine (intChars i) := by
  intro c hc
  unfold intChars at hc
  by_cases hneg : i < 0
  · rw [if_pos hneg] at hc
    rcases List.mem_cons.mp hc with h | h
    · subst h; exact ⟨by decide, by decide⟩
    · obtain ⟨d, hd, rfl⟩ := natChars_mem _ c h
      exact ⟨(digitChar_props d hd).2.1, (digitChar_props d hd).2.2.1⟩
  · rw [if_neg hneg] at hc
    obtain ⟨d, hd, rfl⟩ := natChars_mem _ c hc
    exact ⟨(digitChar_props d hd).2.1, (digitChar_props d hd).2.2.1⟩

/-- The rendered handle line of a 64-bit value is at most 20 characters. -/
lemma intChars_length (i : Int) (h : i.natAbs < 2 ^ 63) :
    (intChars i).length ≤ 20 := by
  have h19 : ∀ m : Nat, m < 2 ^ 63 → (natChars m).length ≤ 19 := by
    intro m hm
    have hm19 : m < 10 ^ 19 := lt_trans hm (by norm_num)
    unfold natChars
    by_cases h0 : m = 0
    · rw [if_pos h0]; simp
    · rw [if_neg h0]
      exact natCharsAux_length (m + 1) 19 m hm19
  unfold intChars
  by_cases hneg : i < 0
  · rw [if_pos hneg]
    have : i.natAbs < 2 ^ 63 := h
    simp only [List.length_cons]
    have := h19 i.natAbs this
    omega
  · rw [if_neg hneg]
    have : i.toNat < 2 ^ 63 := by omega
    have := h19 i.toNat this
    omega

/-- Parsing the `%lld` rendering of a signed value with `_wtoi64` recovers
the value. -/
lemma wtoi64_intChars (i : Int) : wtoi64 (intChars i) = i := by
  by_cases hneg : i < 0
  · have hich : intChars i = '-' :: natChars i.natAbs := by
      unfold intChars
      rw [if_pos hneg]
    have hdrop : ('-' :: natChars i.natAbs).dropWhile isSpaceChar =
        '-' :: natChars i.natAbs := by
      rw [List.dropWhile_cons]
      simp [isSpaceChar]
    rw [hich]
    simp [wtoi64, hdrop, parse_natChars, abs_of_neg hneg]
  · have hich : intChars i = natChars i.toNat := by
      unfold intChars
      rw [if_neg hneg]
    cases hnc : natChars i.toNat with
    | nil => exact absurd hnc (natChars_ne_nil _)
    | cons c cs =>
        have hcmem : c ∈ natChars i.toNat := by
          rw [hnc]
          exact List.mem_cons_self c cs
        obtain ⟨d, hd, rfl⟩ := natChars_mem _ c hcmem
        have hp := digitChar_props d hd
        have hdrop : (digitChar d :: cs).dropWhile isSpaceChar =
            digitChar d :: cs := by
          rw [List.dropWhile_cons, hp.2.2.2.1]
          simp
        have hparse : parseDigits 0 (digitChar d :: cs) = i.toNat := by
          rw [← hnc, parse_natChars]
        rw [hich, hnc]
        simp [wtoi64, hdrop, hp.2.2.2.2.1, hp.2.2.2.2.2.1, hparse]
        omega

/-! ## Helper lemmas: line reads of the state file -/

/-- A `fgetws` call whose buffer is large enough consumes exactly the line
up to and including its newline. -/
lemma fgetws_exact :
    ∀ (l : List Char) (n : Nat) (rest : List Char), '\n' ∉ l →
      l.length + 1 ≤ n →
      fgetwsGo n (l ++ '\n' :: rest) = (l ++ ['\n'], rest) := by
  intro l
  induction l with
  | nil =>
      intro n rest _ hn
      cases n with
      | zero => omega
      | succ m =>
          simp [fgetwsGo]
  | cons c l ih =>
      intro n rest hnl hn
      have hc : ¬ c = '\n' := fun h =>
        hnl (by rw [h]; exact List.mem_cons_self _ _)
      cases n with
      | zero => simp at hn
      | succ m =>
          simp only [List.cons_append, fgetwsGo]
          rw [if_neg hc]
          simp only [List.append_eq]
          have hrec := ih m rest
            (fun h => hnl (List.mem_cons_of_mem c h))
            (by simp at hn; omega)
          rw [hrec]

/-- Stripping trailing newline characters removes a final `\n`. -/
lemma rstrip_append_newline (l : List Char) :
    rstrip (l ++ ['\n']) = rstrip l := by
  unfold rstrip
  rw [List.reverse_append]
  simp only [List.reverse_cons, List.reverse_nil, List.nil_append,
    List.singleton_append, List.dropWhile_cons]
  rw [if_pos (by decide)]

/-- `dropWhile` with a predicate failing on every element is the
identity. -/
lemma dropWhile_false_eq_self {p : Char → Bool} {m : List Char}
    (hm : ∀ c ∈ m, p c = false) : m.dropWhile p = m := by
  cases m with
  | nil => rfl
  | cons c cs =>
      have hc := hm c (List.mem_cons_self c cs)
      rw [List.dropWhile_cons, if_neg (by rw [hc]; simp)]

/-- A line free of trailing-strip characters is left unchanged. -/
lemma rstrip_of_clean {l : List Char} (h : cleanLine l) : rstrip l = l := by
  unfold rstrip
  have hrev : ∀ c ∈ l.reverse, (c = '\n' || c = '\r') = false := by
    intro c hc
    have := h c (List.mem_reverse.mp hc)
    simp only [Bool.or_eq_false_iff, decide_eq_false_iff_not]
    exact this
  rw [dropWhile_false_eq_self hrev, List.reverse_reverse]

/-- Characters surviving the trailing strip come from the original line. -/
lemma mem_rstrip {c : Char} {l : List Char} (h : c ∈ rstrip l) : c ∈ l := by
  unfold rstrip at h
  rw [List.mem_reverse] at h
  exact List.mem_reverse.mp ((List.dropWhile_sublist _).subset h)

/-- One line of the state file read by `readLines`: the first `fgetws`
consumes up to the first newline, the strip drops that newline. -/
lemma readLines_cons (k : Nat) (l rest : List Char) (hnl : '\n' ∉ l)
    (hlen : l.length ≤ 2046) :
    readLines (k + 1) (l ++ '\n' :: rest) =
      rstrip l :: readLines k rest := by
  have hg := fgetws_exact l 2047 rest hnl (by omega)
  cases l with
  | nil =>
      simp only [List.nil_append] at hg ⊢
      rw [readLines, hg]
      · have h1 : rstrip ['\n'] = ([] : List Char) := by decide
        have h2 : rstrip ([] : List Char) = [] := by decide
        simp [h1, h2]
      all_goals simp
  | cons c l2 =>
      simp only [List.cons_append] at hg ⊢
      rw [readLines, hg]
      · simp only [← List.cons_append]
        rw [rstrip_append_newline]
      all_goals simp

/-! ## The record-then-show composition of C1/C10 -/

/-- The record-then-show scenario: a `--save` invocation for session `k`
(capturing window `S`, runtime id, caller path and the free text `t`)
followed by the `--notify-show` invocation for the same `k` on the
resulting store. -/
def recordThenShow (isWindow isWT : Int → Bool) (inputMode : Bool)
    (k t : List Char) (S : Int) (runtimeId callerExe : List Char)
    (store : Store) : ShowResult × Store :=
  notifyShowInvocation isWindow isWT inputMode k
    (saveInvocation k t S runtimeId callerExe store).2

/-- Reading back a four-line state stream whose first line is a rendered
handle: `LoadState` recovers the handle (live and nonzero by assumption),
the runtime id, the icon path and the fourth line, each stripped of
trailing newline characters; anything after the fourth newline is never
read. -/
lemma loadState_lines (isWindow isWT : Int → Bool) (S : Int)
    (rid exe l4 rest4 : List Char)
    (hS : S ≠ 0) (hSw : isWindow S = true) (hSr : S.natAbs < 2 ^ 63)
    (hrid : '\n' ∉ rid) (hridlen : rid.length ≤ 2046)
    (hexe : '\n' ∉ exe) (hexelen : exe.length ≤ 2046)
    (hl4 : '\n' ∉ l4) (hl4len : l4.length ≤ 2046) :
    loadState isWindow isWT
      (some (intChars S ++ '\n' ::
        (rid ++ '\n' :: (exe ++ '\n' :: (l4 ++ '\n' :: rest4))))) =
      { targetWindowHandle := some S,
        wtWindowHandle := if isWT S = true then some S else none,
        wtSavedRuntimeId := rstrip rid,
        savedIconPath := rstrip exe,
        userPrompt := rstrip l4 } := by
  have hl1nl : '\n' ∉ intChars S := fun h => ((intChars_clean S) _ h).1 rfl
  have hl1len : (intChars S).length ≤ 2046 :=
    le_trans (intChars_length S hSr) (by norm_num)
  have hlines : readLines 4 (intChars S ++ '\n' ::
      (rid ++ '\n' :: (exe ++ '\n' :: (l4 ++ '\n' :: rest4)))) =
      [intChars S, rstrip rid, rstrip exe, rstrip l4] := by
    rw [readLines_cons 3 _ _ hl1nl hl1len,
      readLines_cons 2 _ _ hrid hridlen,
      readLines_cons 1 _ _ hexe hexelen,
      readLines_cons 0 _ _ hl4 hl4len,
      rstrip_of_clean (intChars_clean S)]
    rfl
  simp only [loadState]
  rw [hlines]
  simp only [List.getD_cons_zero, List.getD_cons_succ, wtoi64_intChars]
  by_cases hwt : isWT S = true
  · rw [if_pos ⟨hS, hSw⟩, if_pos ⟨hS, hSw, hwt⟩, if_pos hwt]
  · rw [if_pos ⟨hS, hSw⟩, if_neg (fun h => hwt h.2.2), if_neg hwt]

/-- Clicking a toast whose loaded target is a live window `S` foregrounds
`S`, whether or not the Windows Terminal tab path is taken. -/
lemma activationTarget_loaded (isWindow : Int → Bool) (S : Int)
    (wh : Option Int) (rid2 icon up : List Char)
    (hSw : isWindow S = true) (hwh : wh = some S ∨ wh = none) :
    activationTarget (activateWindow isWindow
      ⟨some S, wh, rid2, icon, up⟩) = some S := by
  rcases hwh with rfl | rfl
  · by_cases hr : rid2 = []
    · simp [activateWindow, regularActivate, hr, hSw, activationTarget]
    · simp [activateWindow, regularActivate, hr, hSw, activationTarget]
  · simp [activateWindow, regularActivate, hSw, activationTarget]

/-! ## C1 -/

/-- C1, amended.  Record-then-show round trip, for a nonempty session key
`k`, a nonempty single-line text `t` (no `\n`, no `\r`) within the
35-character display cap, and a captured target window `S` that is nonzero,
still alive at show time, and a 64-bit value (with the runtime id and
caller path lines free of embedded newlines and within the 2047-character
line buffer): the shown toast's message equals `t`, a click on it
activates `S` (via the Windows Terminal tab path or plain activation), and
after the show invocation the store has no entry for `k`.  The claim as
stated also admits the empty text, for which the message falls back to the
default instead. -/
theorem C1_record_show_round_trip (isWindow isWT : Int → Bool)
    (inputMode : Bool) (k t : List Char) (S : Int)
    (runtimeId callerExe : List Char) (store : Store)
    (hk : k ≠ []) (ht : t ≠ []) (htclean : cleanLine t)
    (htlen : t.length ≤ 35)
    (hS : S ≠ 0) (hSw : isWindow S = true) (hSr : S.natAbs < 2 ^ 63)
    (hrid : '\n' ∉ runtimeId) (hridlen : runtimeId.length ≤ 2046)
    (hexe : '\n' ∉ callerExe) (hexelen : callerExe.length ≤ 2046) :
    (recordThenShow isWindow isWT inputMode k t S runtimeId callerExe
      store).1.message = t ∧
    activationTarget (recordThenShow isWindow isWT inputMode k t S
      runtimeId callerExe store).1.click = some S ∧
    (recordThenShow isWindow isWT inputMode k t S runtimeId callerExe
      store).2 k = none := by
  have hnt : '\n' ∉ t := fun h => (htclean _ h).1 rfl
  have hfile : (saveInvocation k t S runtimeId callerExe store).2 k =
      some (saveStateFile S runtimeId callerExe t) := by
    unfold saveInvocation
    rw [if_neg hk]
    show (if k = k then some (saveStateFile S runtimeId callerExe t)
      else store k) = _
    rw [if_pos rfl]
  have hloadfile : loadState isWindow isWT
      (some (saveStateFile S runtimeId callerExe t)) =
      { targetWindowHandle := some S,
        wtWindowHandle := if isWT S = true then some S else none,
        wtSavedRuntimeId := rstrip runtimeId,
        savedIconPath := rstrip callerExe,
        userPrompt := t } := by
    have h1 := loadState_lines isWindow isWT S runtimeId callerExe t []
      hS hSw hSr hrid hridlen hexe hexelen hnt (by omega)
    rw [show saveStateFile S runtimeId callerExe t =
      intChars S ++ '\n' :: (runtimeId ++ '\n' ::
        (callerExe ++ '\n' :: (t ++ '\n' :: []))) from rfl]
    rw [h1, rstrip_of_clean htclean]
  have hnorm : normalizeMessage t = t := by
    unfold normalizeMessage
    rw [substituteNewlines_of_clean htclean]
    unfold truncateWithEllipsis maxLen
    rw [if_neg (by omega)]
  have hrun : recordThenShow isWindow isWT inputMode k t S runtimeId
      callerExe store =
      (⟨0,
        if inputMode then "Input Required".data else "Claude Code".data,
        normalizeMessage t,
        activateWindow isWindow
          { targetWindowHandle := some S,
            wtWindowHandle := if isWT S = true then some S else none,
            wtSavedRuntimeId := rstrip runtimeId,
            savedIconPath := rstrip callerExe,
            userPrompt := t }⟩,
        eraseState (saveInvocation k t S runtimeId callerExe store).2
          k) := by
    simp only [recordThenShow, notifyShowInvocation]
    rw [if_neg hk, hfile, hloadfile]
    simp [ht]
  refine ⟨?_, ?_, ?_⟩
  · rw [hrun]
    exact hnorm
  · rw [hrun]
    exact activationTarget_loaded isWindow S _ _ _ _ hSw
      (by by_cases hwt : isWT S = true <;> simp [hwt])
  · rw [hrun]
    show (if k = k then none
      else (saveInvocation k t S runtimeId callerExe store).2 k) = none
    rw [if_pos rfl]

/-- Counterexample to C1 as stated: the empty text is a single-line
free-text within the display cap, but recording session `"abc"` with it
and then showing `"abc"` displays the default message `"Task completed"`,
not the recorded (empty) text. -/
theorem C1_counterexample :
    (recordThenShow (fun _ => true) (fun _ => false) false "abc".data []
      5 [] [] (fun _ => none)).1.message = "Task completed".data ∧
    "Task completed".data ≠ ([] : List Char) := by
  exact ⟨by decide, by decide⟩

/-- Witness for C1 at a concrete session, text and window handle. -/
theorem C1_record_show_round_trip_witness :
    (recordThenShow (fun _ => true) (fun _ => false) false "abc".data
      "build finished".data 5 [] [] (fun _ => none)).1.message =
      "build finished".data ∧
    activationTarget (recordThenShow (fun _ => true) (fun _ => false)
      false "abc".data "build finished".data 5 [] []
      (fun _ => none)).1.click = some 5 ∧
    (recordThenShow (fun _ => true) (fun _ => false) false "abc".data
      "build finished".data 5 [] [] (fun _ => none)).2 "abc".data =
      none :=
  C1_record_show_round_trip (fun _ => true) (fun _ => false) false
    "abc".data "build finished".data 5 [] [] (fun _ => none)
    (by decide) (by decide) (by unfold cleanLine; decide) (by decide)
    (by decide) rfl (by decide) (by decide) (by decide) (by decide)
    (by decide)

/-! ## Helper lemmas: text containing a newline -/

/-- A text containing a newline splits as its first-line part, the
newline, and the remainder. -/
lemma break_at_newline :
    ∀ (t : List Char), '\n' ∈ t →
      ∃ q, t = (t.takeWhile fun c => c != '\n') ++ '\n' :: q := by
  intro t
  induction t with
  | nil => intro h; exact absurd h (List.not_mem_nil _)
  | cons c cs ih =>
      intro h
      by_cases hc : c = '\n'
      · subst hc
        refine ⟨cs, ?_⟩
        rw [List.takeWhile_cons]
        rw [show (('\n' : Char) != '\n') = false from by decide]
        simp
      · have hmem : '\n' ∈ cs := by
          rcases List.mem_cons.mp h with h1 | h1
          · exact absurd h1.symm hc
          · exact h1
        obtain ⟨q, hq⟩ := ih hmem
        refine ⟨q, ?_⟩
        rw [List.takeWhile_cons]
        rw [show (c != '\n') = true from by simp [hc]]
        simp only [if_true]
        rw [List.cons_append, ← hq]

/-- The first-line part contains no newline. -/
lemma takeWhile_no_newline (t : List Char) :
    '\n' ∉ t.takeWhile fun c => c != '\n' := by
  intro h
  have := List.mem_takeWhile_imp h
  simp at this

/-- The message a `--notify-show` invocation displays when the loaded
prompt is nonempty: the normalized prompt, in either mode. -/
lemma notifyShow_message (isWindow isWT : Int → Bool) (inputMode : Bool)
    (k : List Char) (store : Store) (hk : k ≠ [])
    (hup : (loadState isWindow isWT (store k)).userPrompt ≠ []) :
    (notifyShowInvocation isWindow isWT inputMode k store).1.message =
      normalizeMessage (loadState isWindow isWT (store k)).userPrompt := by
  simp only [notifyShowInvocation]
  rw [if_neg hk]
  simp [hup]

/-! ## C10 -/

/-- C10, amended.  When the recorded free text `t` contains a newline,
`SaveState` writes it verbatim as line 4 and the single line read of
`LoadState` recovers only the part of `t` before its first newline, with
trailing carriage returns stripped; the loaded prompt therefore never
contains a newline, so the show path's newline substitution never observes
a recorded `\n`; and when that first-line part is nonempty, free of
carriage returns and within the display cap, the shown message equals
exactly that part.  (The claim's further assertion that the message always
equals the prefix fails when the prefix is empty — the default message is
shown — or longer than the cap.) -/
theorem C10_newline_split_round_trip (isWindow isWT : Int → Bool)
    (inputMode : Bool) (k t : List Char) (S : Int)
    (runtimeId callerExe : List Char) (store : Store)
    (hk : k ≠ []) (hmem : '\n' ∈ t)
    (hplen : (t.takeWhile fun c => c != '\n').length ≤ 2046)
    (hS : S ≠ 0) (hSw : isWindow S = true) (hSr : S.natAbs < 2 ^ 63)
    (hrid : '\n' ∉ runtimeId) (hridlen : runtimeId.length ≤ 2046)
    (hexe : '\n' ∉ callerExe) (hexelen : callerExe.length ≤ 2046) :
    (loadState isWindow isWT
      (some (saveStateFile S runtimeId callerExe t))).userPrompt =
      rstrip (t.takeWhile fun c => c != '\n') ∧
    '\n' ∉ (loadState isWindow isWT
      (some (saveStateFile S runtimeId callerExe t))).userPrompt ∧
    ((t.takeWhile fun c => c != '\n') ≠ [] →
      cleanLine (t.takeWhile fun c => c != '\n') →
      (t.takeWhile fun c => c != '\n').length ≤ 35 →
      (recordThenShow isWindow isWT inputMode k t S runtimeId callerExe
        store).1.message = t.takeWhile fun c => c != '\n') := by
  obtain ⟨q, hq⟩ := break_at_newline t hmem
  have hpn : '\n' ∉ t.takeWhile fun c => c != '\n' := takeWhile_no_newline t
  have hfileeq : saveStateFile S runtimeId callerExe t =
      intChars S ++ '\n' :: (runtimeId ++ '\n' :: (callerExe ++ '\n' ::
        ((t.takeWhile fun c => c != '\n') ++ '\n' :: (q ++ ['\n'])))) := by
    unfold saveStateFile
    conv_lhs => rw [hq]
    simp
  have hload := loadState_lines isWindow isWT S runtimeId callerExe
    (t.takeWhile fun c => c != '\n') (q ++ ['\n'])
    hS hSw hSr hrid hridlen hexe hexelen hpn hplen
  have hup : (loadState isWindow isWT
      (some (saveStateFile S runtimeId callerExe t))).userPrompt =
      rstrip (t.takeWhile fun c => c != '\n') := by
    rw [hfileeq, hload]
  refine ⟨hup, ?_, ?_⟩
  · rw [hup]
    exact fun h => hpn (mem_rstrip h)
  · intro hne hcl hlen
    have hfile : (saveInvocation k t S runtimeId callerExe store).2 k =
        some (saveStateFile S runtimeId callerExe t) := by
      unfold saveInvocation
      rw [if_neg hk]
      show (if k = k then some (saveStateFile S runtimeId callerExe t)
        else store k) = _
      rw [if_pos rfl]
    have hup2 : (loadState isWindow isWT
        ((saveInvocation k t S runtimeId callerExe store).2 k)).userPrompt =
        t.takeWhile fun c => c != '\n' := by
      rw [hfile, hup, rstrip_of_clean hcl]
    have hnorm : normalizeMessage (t.takeWhile fun c => c != '\n') =
        t.takeWhile fun c => c != '\n' := by
      unfold normalizeMessage
      rw [substituteNewlines_of_clean hcl]
      unfold truncateWithEllipsis maxLen
      rw [if_neg (by omega)]
    unfold recordThenShow
    rw [notifyShow_message isWindow isWT inputMode k _ hk
      (by rw [hup2]; exact hne)]
    rw [hup2, hnorm]

/-- Counterexample to C10 as stated: recording text `"\nabc"` (whose
first-line part is empty) and showing it displays the default message
`"Task completed"`, not the empty prefix before the first newline. -/
theorem C10_counterexample :
    (recordThenShow (fun _ => true) (fun _ => false) false "abc".data
      "\nabc".data 5 [] [] (fun _ => none)).1.message =
      "Task completed".data ∧
    ("\nabc".data).takeWhile (fun c => c != '\n') = ([] : List Char) ∧
    "Task completed".data ≠ ([] : List Char) := by
  exact ⟨by decide, by decide, by decide⟩

/-- Witness for C10 at a concrete recorded text containing a newline. -/
theorem C10_newline_split_round_trip_witness :
    (loadState (fun _ => true) (fun _ => false)
      (some (saveStateFile 5 [] [] "hi\nthere".data))).userPrompt =
      rstrip ("hi\nthere".data.takeWhile fun c => c != '\n') ∧
    '\n' ∉ (loadState (fun _ => true) (fun _ => false)
      (some (saveStateFile 5 [] [] "hi\nthere".data))).userPrompt ∧
    (("hi\nthere".data.takeWhile fun c => c != '\n') ≠ [] →
      cleanLine ("hi\nthere".data.takeWhile fun c => c != '\n') →
      ("hi\nthere".data.takeWhile fun c => c != '\n').length ≤ 35 →
      (recordThenShow (fun _ => true) (fun _ => false) false "abc".data
        "hi\nthere".data 5 [] [] (fun _ => none)).1.message =
        "hi\nthere".data.takeWhile fun c => c != '\n') :=
  C10_newline_split_round_trip (fun _ => true) (fun _ => false) false
    "abc".data "hi\nthere".data 5 [] [] (fun _ => none)
    (by decide) (by decide) (by decide) (by decide) rfl (by decide)
    (by decide) (by decide) (by decide) (by decide)

end ToastWindow
